import Mathlib

/-!
Verification of the change-stream consumer of `npm-search`.

The definitions below are a shallow embedding of the TypeScript source:

* `backoff` embeds `backoff` from `src/utils/wait.ts` (unnamed part_000,
  lines 11-20): `Math.min(Math.pow(retry + 1, pow) * 1000, max)` followed by
  a wait of that many milliseconds.  The internal `log.info` progress line is
  not part of the model.  Durations are in milliseconds, as in the source.
* `storeChangeTrace` / `storeChangeRest` embed the recursive `storeChange`
  closure of `Watch.launchChangeReader` (`src/watch.ts`, lines 125-144) as the
  trace of observable actions it performs when the Forwarding Queue
  (`algoliaStore.mainQueueIndex.saveObject`) fails a given number of times and
  then succeeds.
* `handleChange` embeds the `'change'` handler of `launchChangeReader`
  (`src/watch.ts`, lines 120-153), and `handleError` the `'error'` handler
  (lines 154-156).
* `stopTrace` embeds `Watch.stop` (`src/watch.ts`, lines 91-106).
* `escapeNode` and friends embed `maybeEscape` applied through
  `traverse(truncated).forEach(maybeEscape)` in `formatPkg`
  (unnamed part_001, lines 110-113 and 181-189), with `escapeHtml` embedding
  the `escape-html` package used there.
-/

/-- Embeds `backoff(retry, pow, max)` from `src/utils/wait.ts`: the wait
duration in milliseconds is `Math.min(Math.pow(retry + 1, pow) * 1000, max)`.
`mx` stands for the source's `max` parameter. -/
def backoff (retry pow mx : Nat) : Nat :=
  min ((retry + 1) ^ pow * 1000) mx

/-- Observable actions of the `'change'` handler of `launchChangeReader` and
of the `storeChange` closure inside it. -/
inductive Ev where
  /-- the call `npm.db.changesReader.pause()` -/
  | pause : Ev
  /-- the call `npm.db.changesReader.resume()` -/
  | resume : Ev
  /-- a call `saveObject({ objectID, retries, change })` on the Forwarding
  Queue (`algoliaStore.mainQueueIndex`), recording the `objectID` and
  `retries` fields of the object passed -/
  | saveAttempt (objectID : String) (retries : Nat) : Ev
  /-- the call `log.err` with the message about adding a change to the queue and the error object -/
  | logErr : Ev
  /-- the suspension `await backoff(newRetry, pow, max)`, recording the
  `retry` argument passed to `backoff` and the resulting wait in ms -/
  | waitBackoff (retry ms : Nat) : Ev
  /-- initiation of `this.logProgress(change.seq)` -/
  | logProgressStart (seq : Nat) : Ev
  /-- initiation of `this.stateManager.save({ seq: change.seq })` -/
  | checkpointSaveStart (seq : Nat) : Ev
  /-- a call `sentry.report(...)` to the error-reporting sink -/
  | reportErr : Ev
deriving DecidableEq

/-- Trace of the `catch` branch of `storeChange` and everything after it,
when the attempt that just failed had retry counter `retry` and the
Forwarding Queue will fail `failsRemaining` more times before succeeding.
Mirrors `src/watch.ts` lines 132-143: `newRetry = retry + 1`, log the error,
`await backoff(newRetry, pow, max)`, then `return storeChange(newRetry)`,
whose body starts with the next `saveObject` attempt. -/
def storeChangeRest (failsRemaining retry pow mx : Nat) (id : String) :
    List Ev :=
  match failsRemaining with
  | 0 => []
  | n + 1 =>
    Ev.logErr :: Ev.waitBackoff (retry + 1) (backoff (retry + 1) pow mx) ::
      Ev.saveAttempt id 0 :: storeChangeRest n (retry + 1) pow mx id

/-- Trace of `storeChange()` (called with the default `retry = 0`) against a
Forwarding Queue that fails the first `failures` attempts and then succeeds.
Each attempt passes `{ objectID: change.id, retries: 0, change }` to
`saveObject` (`src/watch.ts` lines 127-131). -/
def storeChangeTrace (failures pow mx : Nat) (id : String) : List Ev :=
  Ev.saveAttempt id 0 :: storeChangeRest failures 0 pow mx id

/-- The `retry` argument and wait duration of each `waitBackoff` event of a
trace, in order. -/
def waitArgs : List Ev → List (Nat × Nat)
  | [] => []
  | Ev.waitBackoff r d :: tl => (r, d) :: waitArgs tl
  | _ :: tl => waitArgs tl

/-- Number of `saveAttempt` events of a trace. -/
def saveCount (l : List Ev) : Nat :=
  l.countP fun e => match e with
    | Ev.saveAttempt _ _ => true
    | _ => false

/-- A `ChangeEvent` as consumed by the `'change'` handler: `id` is `none`
when the field is absent and `some s` when present with value `s`; `seq` is
the cursor. -/
structure ChangeEvent where
  id : Option String
  seq : Nat

/-- The truthiness test `!change.id` of `src/watch.ts` line 121: the handler
proceeds only when `id` is present and non-empty. -/
def hasId (c : ChangeEvent) : Bool :=
  match c.id with
  | none => false
  | some s => !s.isEmpty

/-- Trace of the `'change'` handler (`src/watch.ts` lines 120-153) for one
delivered event `c`.  `outcome = some n` means the Forwarding Queue fails the
first `n` `saveObject` attempts and then succeeds, so `storeChange` settles;
`outcome = none` means the first `saveObject` promise never settles.

The synchronous prefix follows the source order: `pause()`, then
`storeChange()` runs up to its first suspension (so the first `saveObject`
call happens here), then `logProgress(change.seq)` and
`stateManager.save({ seq: change.seq })` are initiated.  The remaining
forward events run asynchronously afterwards, and
`.then(() => npm.db.changesReader.resume())` fires only once `storeChange`
settles. -/
def handleChange (c : ChangeEvent) (outcome : Option Nat) (pow mx : Nat) :
    List Ev :=
  if hasId c then
    Ev.pause :: Ev.saveAttempt (c.id.getD "") 0 ::
      Ev.logProgressStart c.seq :: Ev.checkpointSaveStart c.seq ::
      (match outcome with
       | some n => storeChangeRest n 0 pow mx (c.id.getD "") ++ [Ev.resume]
       | none => [])
  else []

/-- Trace of the `'error'` handler (`src/watch.ts` lines 154-156):
`sentry.report(err)`. -/
def handleError : List Ev := [Ev.reportErr]

/-- Observable actions of `Watch.stop` (`src/watch.ts` lines 91-106). -/
inductive StopEv where
  /-- the call `npm.db.changesReader.stop()` -/
  | readerStop : StopEv
  /-- the call `await this.oneTimeIndexer?.stop?.()` -/
  | oneTimeStop : StopEv
  /-- the call `await this.periodicDataIndexer?.stop?.()` -/
  | periodicStop : StopEv
  /-- the call `await this.mainWatchIndexer?.stop?.()` -/
  | mainStop : StopEv
  /-- the call `sentry.report(err)` in the `catch` branch -/
  | stopReport : StopEv
  /-- the call `this.changesReader?.removeAllListeners?.()` -/
  | removeAllListeners : StopEv
deriving DecidableEq

/-- The four calls of the single `try` block of `Watch.stop`, in source
order: the feed reader's transport stop followed by the three downstream
indexers' stops. -/
def stopCalls : List StopEv :=
  [StopEv.readerStop, StopEv.oneTimeStop, StopEv.periodicStop,
    StopEv.mainStop]

/-- Trace of `Watch.stop` (`src/watch.ts` lines 91-106), with the three
indexers constructed (as after `run`).  `failAt = none` means no call of the
`try` block throws; `failAt = some k` (with `k < 4`) means the `k`-th call of
`stopCalls` is made and throws, so the later calls of the block are skipped
and the `catch` branch reports the error.  The unconditional
`removeAllListeners` call follows in every case. -/
def stopTrace (failAt : Option Nat) : List StopEv :=
  (match failAt with
   | none => stopCalls
   | some k => stopCalls.take (k + 1) ++ [StopEv.stopReport]) ++
    [StopEv.removeAllListeners]

/-! ### The `formatPkg` escaping stage -/

/-- Embeds the `escape-html` package used by `maybeEscape` (unnamed
part_001, line 186): the five HTML-significant characters are replaced by
entities, every other character is kept. -/
def escapeHtmlChar (c : Char) : String :=
  if c = '&' then "&amp;"
  else if c = '\x22' then "&quot;"
  else if c = '\x27' then "&#39;"
  else if c = '<' then "&lt;"
  else if c = '>' then "&gt;"
  else String.singleton c

/-- the function `escape(node)` from `escape-html`: escape each character of
the string. -/
def escapeHtml (s : String) : String :=
  String.join (s.toList.map escapeHtmlChar)

mutual
/-- A JSON-like document as walked by `traverse` in `formatPkg` (unnamed
part_001, line 112). -/
inductive JVal where
  | str (s : String) : JVal
  | num (n : Int) : JVal
  | bool (b : Bool) : JVal
  | null : JVal
  | arr (xs : JList) : JVal
  | obj (fs : JFields) : JVal
/-- The element list of a JSON array. -/
inductive JList where
  | nil : JList
  | cons (hd : JVal) (tl : JList) : JList
/-- The field list of a JSON object. -/
inductive JFields where
  | nil : JFields
  | cons (key : String) (val : JVal) (tl : JFields) : JFields
end

mutual
/-- Embeds `traverse(doc).forEach(maybeEscape)` (unnamed part_001, lines
112 and 181-189).  `rk` records whether the node's key strictly equals
`'readme'` (`this.key === 'readme'`): string leaves with such a key are kept
verbatim (`this.update(node)`), every other string leaf is replaced by
`escape(node)`; non-string leaves and interior nodes are untouched. -/
def escapeNode (rk : Bool) : JVal → JVal
  | JVal.str s => if rk then JVal.str s else JVal.str (escapeHtml s)
  | JVal.num n => JVal.num n
  | JVal.bool b => JVal.bool b
  | JVal.null => JVal.null
  | JVal.arr xs => JVal.arr (escapeList xs)
  | JVal.obj fs => JVal.obj (escapeFields fs)
/-- Array elements: `traverse` keys them by index, and an index key never
strictly equals the string `'readme'`. -/
def escapeList : JList → JList
  | JList.nil => JList.nil
  | JList.cons x tl => JList.cons (escapeNode false x) (escapeList tl)
/-- Object fields: the key seen by `maybeEscape` is the field name. -/
def escapeFields : JFields → JFields
  | JFields.nil => JFields.nil
  | JFields.cons k v tl =>
    JFields.cons k (escapeNode (k == "readme") v) (escapeFields tl)
end

/-- The final step of `formatPkg` (unnamed part_001, line 112): the document
returned is `traverse(truncated).forEach(maybeEscape)` applied to the
truncated package record.  The root has no key, so `rk` is false. -/
def formatPkgEscape (truncated : JVal) : JVal :=
  escapeNode false truncated

mutual
/-- The string leaves of a document paired with whether their key strictly
equals `'readme'`, in traversal order. -/
def strLeaves (rk : Bool) : JVal → List (Bool × String)
  | JVal.str s => [(rk, s)]
  | JVal.num _ => []
  | JVal.bool _ => []
  | JVal.null => []
  | JVal.arr xs => strLeavesList xs
  | JVal.obj fs => strLeavesFields fs
/-- String leaves of an array's elements. -/
def strLeavesList : JList → List (Bool × String)
  | JList.nil => []
  | JList.cons x tl => strLeaves false x ++ strLeavesList tl
/-- String leaves of an object's fields. -/
def strLeavesFields : JFields → List (Bool × String)
  | JFields.nil => []
  | JFields.cons k v tl =>
    strLeaves (k == "readme") v ++ strLeavesFields tl
end

/-- Pair transformation applied to a string leaf by the escaping stage:
leaves keyed `readme` are kept, all others are HTML-escaped. -/
def escLeaf (p : Bool × String) : Bool × String :=
  (p.1, if p.1 then p.2 else escapeHtml p.2)

/-! ## Helper lemmas -/

theorem waitArgs_storeChangeRest (n : Nat) : ∀ (r pow mx : Nat)
    (id : String), waitArgs (storeChangeRest n r pow mx id) =
      (List.range n).map fun k => (r + k + 1, backoff (r + k + 1) pow mx) := by
  induction n with
  | zero => intro r pow mx id; rfl
  | succ n ih =>
    intro r pow mx id
    show (r + 1, backoff (r + 1) pow mx) ::
        waitArgs (storeChangeRest n (r + 1) pow mx id) = _
    rw [ih, List.range_succ_eq_map, List.map_cons, List.map_map]
    refine congrArg₂ List.cons (by simp) ?_
    refine List.map_congr_left fun k _ => ?_
    have h : r + 1 + k + 1 = r + (k + 1) + 1 := by omega
    simp [Function.comp, h]

theorem saveCount_storeChangeRest (n : Nat) : ∀ (r pow mx : Nat)
    (id : String), saveCount (storeChangeRest n r pow mx id) = n := by
  induction n with
  | zero => intro r pow mx id; rfl
  | succ n ih =>
    intro r pow mx id
    simp only [storeChangeRest, saveCount, List.countP_cons] at *
    rw [ih r.succ pow mx id]
    rfl

theorem count_storeChangeRest_eq_zero (e : Ev) (n : Nat) (r pow mx : Nat)
    (id : String)
    (he : ∀ oid rr rw d, e ≠ Ev.logErr ∧ e ≠ Ev.waitBackoff rw d ∧
      e ≠ Ev.saveAttempt oid rr) :
    (storeChangeRest n r pow mx id).count e = 0 := by
  induction n generalizing r with
  | zero => rfl
  | succ n ih =>
    simp only [storeChangeRest, List.count_cons, ih (r + 1)]
    have h1 := (he id 0 (r + 1) (backoff (r + 1) pow mx)).1
    have h2 := (he id 0 (r + 1) (backoff (r + 1) pow mx)).2.1
    have h3 := (he id 0 (r + 1) (backoff (r + 1) pow mx)).2.2
    simp [beq_iff_eq, Ne.symm h1, Ne.symm h2, Ne.symm h3]

theorem logErr_count_storeChangeRest (n : Nat) : ∀ (r pow mx : Nat)
    (id : String), (storeChangeRest n r pow mx id).count Ev.logErr = n := by
  induction n with
  | zero => intro r pow mx id; rfl
  | succ n ih =>
    intro r pow mx id
    simp only [storeChangeRest, List.count_cons, ih (r + 1)]
    simp

theorem saveAttempt_mem_storeChangeRest (n : Nat) : ∀ (r pow mx : Nat)
    (id oid : String) (rr : Nat),
    Ev.saveAttempt oid rr ∈ storeChangeRest n r pow mx id →
      oid = id ∧ rr = 0 := by
  induction n with
  | zero => intro r pow mx id oid rr h; cases h
  | succ n ih =>
    intro r pow mx id oid rr h
    simp only [storeChangeRest, List.mem_cons] at h
    rcases h with h | h | h | h
    · cases h
    · cases h
    · exact ⟨by injection h, by injection h⟩
    · exact ih (r + 1) pow mx id oid rr h

/-! ## Claims -/

/-- C2: the backoff function is deterministic and side-effect-free: for
every attempt count `a`, exponent `p` and cap `c`, `backoff a p c` equals
`min ((a + 1) ^ p * 1000) c` milliseconds; for `p = 2`, `c = 30000` it maps
attempt 0 to 1000ms, 1 to 4000ms, 2 to 9000ms and 9 to 30000ms (capped). -/
theorem backoff_formula_and_values :
    (∀ a p c : Nat, backoff a p c = min ((a + 1) ^ p * 1000) c) ∧
    backoff 0 2 30000 = 1000 ∧ backoff 1 2 30000 = 4000 ∧
    backoff 2 2 30000 = 9000 ∧ backoff 9 2 30000 = 30000 := by
  refine ⟨fun a p c => rfl, by decide, by decide, by decide, by decide⟩

/-- C1, counterexample: with exponent 2 and cap 30000ms, a forward that
fails once before succeeding passes `retry = 1` (not 0) to `backoff` on the
first failure, and the wait after the first failed attempt is 4000ms, not
1000ms. -/
theorem first_backoff_arg_cex :
    waitArgs (storeChangeTrace 1 2 30000 "pkg") = [(1, 4000)] ∧
    ¬ waitArgs (storeChangeTrace 1 2 30000 "pkg") = [(0, 1000)] := by
  constructor
  · rfl
  · decide

/-- C1, amended: the attempt counter passed to `backoff` is 1 on the first
failure and increases by 1 per subsequent failure, so the inter-attempt
waits are `backoff 1`, `backoff 2`, ...; in particular, with exponent 2 and
cap 30000ms, the wait after the first failed attempt is 4000ms. -/
theorem backoff_args_start_at_one :
    (∀ (failures pow mx : Nat) (id : String),
      waitArgs (storeChangeTrace failures pow mx id) =
        (List.range failures).map fun k => (k + 1, backoff (k + 1) pow mx)) ∧
    (∀ id, (waitArgs (storeChangeTrace 1 2 30000 id)).head? =
      some (1, 4000)) := by
  constructor
  · intro failures pow mx id
    show waitArgs (storeChangeRest failures 0 pow mx id) = _
    rw [waitArgs_storeChangeRest]
    exact List.map_congr_left fun k _ => by simp
  · intro id
    rfl

/-- C6: the retry loop has no ceiling: against a Forwarding Queue that fails
`failures` times and then succeeds, `storeChange` makes exactly
`failures + 1` `saveObject` attempts and then resolves (the trace is the
finite list ending with the successful attempt). -/
theorem storeChange_attempt_count (failures pow mx : Nat) (id : String) :
    saveCount (storeChangeTrace failures pow mx id) = failures + 1 := by
  simp only [storeChangeTrace, saveCount, List.countP_cons] at *
  rw [show (List.countP _ (storeChangeRest failures 0 pow mx id)) =
    saveCount (storeChangeRest failures 0 pow mx id) from rfl,
    saveCount_storeChangeRest]
  simp

/-- C3: every object the forwarder passes to `saveObject` is
`{ objectID: change.id, retries: 0, change }`: any `saveAttempt` event of
the handler's trace carries `retries = 0` and the change's own id,
regardless of how many attempts failed before. -/
theorem saved_record_retries_zero (c : ChangeEvent) (outcome : Option Nat)
    (pow mx : Nat) (oid : String) (rr : Nat)
    (h : Ev.saveAttempt oid rr ∈ handleChange c outcome pow mx) :
    rr = 0 ∧ c.id = some oid := by
  by_cases hid : hasId c
  · have hsome : c.id = some (c.id.getD "") := by
      cases hc : c.id with
      | none => rw [hasId, hc] at hid; cases hid
      | some s => simp
    simp only [handleChange, hid, if_true, List.mem_cons] at h
    rcases h with h | h | h | h | h
    · cases h
    · refine ⟨by injection h, ?_⟩
      rw [hsome]
      injection h with h1 h2
      rw [h1]
    · cases h
    · cases h
    · cases outcome with
      | none => cases h
      | some n =>
        simp only [List.mem_append, List.mem_singleton] at h
        rcases h with h | h
        · have := saveAttempt_mem_storeChangeRest n 0 pow mx
            (c.id.getD "") oid rr h
          exact ⟨this.2, by rw [hsome, this.1]⟩
        · cases h
  · simp only [handleChange, hid, if_false] at h
    cases h

/-- C3 witness: the theorem applied to a concrete change and trace. -/
theorem saved_record_retries_zero_witness :
    (0 : Nat) = 0 ∧ (ChangeEvent.mk (some "p") 5).id = some "p" :=
  saved_record_retries_zero ⟨some "p", 5⟩ (some 1) 2 30000 "p" 0 (by decide)

/-- C7, counterexample: a forward that fails once before succeeding logs
the failure exactly once via `log.err` but makes no call at all to the
error-reporting sink `sentry.report` — the claim that every failed attempt
produces a `report` call with the change's identifying fields is false. -/
theorem failed_attempt_not_reported_cex :
    saveCount (storeChangeTrace 1 2 30000 "p") = 2 ∧
    (storeChangeTrace 1 2 30000 "p").count Ev.logErr = 1 ∧
    (storeChangeTrace 1 2 30000 "p").count Ev.reportErr = 0 := by
  decide

/-- C7, amended: every failed forward attempt is logged via
`log.err('Error adding a change to the queue.', { err })` — once per
failure — and no call to the error-reporting sink `report` is made by the
retry loop, nor are the change's identifying fields attached to the log
context. -/
theorem failed_attempts_logged_not_reported (failures pow mx : Nat)
    (id : String) :
    (storeChangeTrace failures pow mx id).count Ev.logErr = failures ∧
    (storeChangeTrace failures pow mx id).count Ev.reportErr = 0 := by
  constructor
  · simp only [storeChangeTrace, List.count_cons,
      logErr_count_storeChangeRest failures 0 pow mx id]
    simp
  · simp only [storeChangeTrace, List.count_cons,
      count_storeChangeRest_eq_zero Ev.reportErr failures 0 pow mx id
        (by intro oid rr rw d; refine ⟨by simp, by simp, by simp⟩)]
    simp

/-- C4: for every delivered change with a non-empty id, the handler calls
`pause()` first (before the first `saveObject` call), calls `resume()`
exactly once if and only if the forward settles, and that `resume()` call
comes after every event of the forward (it is the last event); if the
forward never settles, `resume()` is never called.  Together with the
FeedSource pause contract this gives at most one change in flight. -/
theorem pause_resume_discipline (c : ChangeEvent) (outcome : Option Nat)
    (pow mx : Nat) (h : hasId c = true) :
    (handleChange c outcome pow mx).head? = some Ev.pause ∧
    (handleChange c outcome pow mx).count Ev.resume =
      (if outcome.isSome then 1 else 0) ∧
    (outcome.isSome = true →
      (handleChange c outcome pow mx).getLast? = some Ev.resume) ∧
    (outcome = none → Ev.resume ∉ handleChange c outcome pow mx) := by
  cases outcome with
  | none =>
    refine ⟨by simp [handleChange, h], ?_, by simp, ?_⟩
    · simp [handleChange, h, List.count_cons]
    · intro _
      simp [handleChange, h]
  | some n =>
    have hrest : (storeChangeRest n 0 pow mx (c.id.getD "")).count
        Ev.resume = 0 :=
      count_storeChangeRest_eq_zero Ev.resume n 0 pow mx (c.id.getD "")
        (by intro oid rr rw d; exact ⟨by simp, by simp, by simp⟩)
    have heq : handleChange c (some n) pow mx =
        (Ev.pause :: Ev.saveAttempt (c.id.getD "") 0 ::
          Ev.logProgressStart c.seq :: Ev.checkpointSaveStart c.seq ::
          storeChangeRest n 0 pow mx (c.id.getD "")) ++ [Ev.resume] := by
      simp [handleChange, h]
    refine ⟨by simp [handleChange, h], ?_, ?_, by simp⟩
    · rw [heq, List.count_append, List.count_cons, List.count_cons,
        List.count_cons, List.count_cons, hrest]
      simp
    · intro _
      rw [heq, List.getLast?_concat]

/-- C4 witness: the theorem applied to a concrete change that settles after
one failed attempt. -/
theorem pause_resume_discipline_witness :
    (handleChange ⟨some "p", 5⟩ (some 1) 2 30000).head? = some Ev.pause ∧
    (handleChange ⟨some "p", 5⟩ (some 1) 2 30000).count Ev.resume =
      (if (some 1 : Option Nat).isSome then 1 else 0) ∧
    ((some 1 : Option Nat).isSome = true →
      (handleChange ⟨some "p", 5⟩ (some 1) 2 30000).getLast? =
        some Ev.resume) ∧
    ((some 1 : Option Nat) = none →
      Ev.resume ∉ handleChange ⟨some "p", 5⟩ (some 1) 2 30000) :=
  pause_resume_discipline ⟨some "p", 5⟩ (some 1) 2 30000 (by decide)

/-- C5: for every processed change, the checkpoint save
`stateManager.save({ seq: change.seq })` is initiated exactly once by the
handler, for every forward outcome — in particular also when the Forwarding
Queue write never settles (`outcome = none`), so the save is not sequenced
after the forward's completion. -/
theorem checkpoint_save_always_initiated (c : ChangeEvent)
    (outcome : Option Nat) (pow mx : Nat) (h : hasId c = true) :
    (handleChange c outcome pow mx).count (Ev.checkpointSaveStart c.seq) =
      1 := by
  have hrest : ∀ n, (storeChangeRest n 0 pow mx (c.id.getD "")).count
      (Ev.checkpointSaveStart c.seq) = 0 := fun n =>
    count_storeChangeRest_eq_zero (Ev.checkpointSaveStart c.seq) n 0 pow mx
      (c.id.getD "") (by intro oid rr rw d; exact ⟨by simp, by simp, by simp⟩)
  cases outcome with
  | none => simp [handleChange, h, List.count_cons]
  | some n =>
    simp [handleChange, h, List.count_cons, List.count_append, hrest n]

/-- C5 witness: the theorem applied to a concrete change whose forward
never settles. -/
theorem checkpoint_save_always_initiated_witness :
    (handleChange ⟨some "p", 5⟩ none 2 30000).count
      (Ev.checkpointSaveStart 5) = 1 :=
  checkpoint_save_always_initiated ⟨some "p", 5⟩ none 2 30000 (by decide)

/-- C9: a delivered change whose id is absent or empty is skipped entirely:
the handler performs no action at all — no pause, no `saveObject`, no
checkpoint save, no progress report. -/
theorem empty_id_skips_event (c : ChangeEvent) (outcome : Option Nat)
    (pow mx : Nat) (h : hasId c = false) :
    handleChange c outcome pow mx = [] := by
  simp [handleChange, h]

/-- C9 witness: the theorem applied to a change with an absent id and to a
change with an empty id. -/
theorem empty_id_skips_event_witness :
    handleChange ⟨none, 7⟩ (some 3) 2 30000 = [] ∧
    handleChange ⟨some "", 8⟩ none 2 30000 = [] :=
  ⟨empty_id_skips_event ⟨none, 7⟩ (some 3) 2 30000 (by decide),
    empty_id_skips_event ⟨some "", 8⟩ none 2 30000 (by decide)⟩

/-- C8: during `stop()`, the feed transport stop is the first call, and the
three indexer stops run sequentially in one guard: when the `k`-th call of
the `try` block throws, the error is reported once and exactly the calls up
to the `k`-th were made (the later ones are skipped); when nothing throws
all four calls are made and nothing is reported; `removeAllListeners` is
unconditionally the last action in every case. -/
theorem stop_shortcircuit (failAt : Option Nat)
    (h : ∀ k, failAt = some k → k < 4) :
    (stopTrace failAt).head? = some StopEv.readerStop ∧
    (stopTrace failAt).getLast? = some StopEv.removeAllListeners ∧
    (failAt = none →
      stopTrace failAt = stopCalls ++ [StopEv.removeAllListeners]) ∧
    (∀ k, failAt = some k →
      (stopTrace failAt).count StopEv.stopReport = 1 ∧
      ∀ j, j < 4 →
        (stopCalls.getD j StopEv.stopReport ∈ stopTrace failAt ↔
          j ≤ k)) := by
  cases failAt with
  | none =>
    exact ⟨rfl, by decide, fun _ => rfl, fun k hk => Option.noConfusion hk⟩
  | some k =>
    have hk4 : k < 4 := h k rfl
    interval_cases k <;>
      exact ⟨rfl, by decide, fun hco => Option.noConfusion hco,
        fun k' hk' => by
          injection hk' with e
          subst e
          exact ⟨by decide, by decide⟩⟩

/-- C8 witness: the theorem applied to the run where the first downstream
indexer's stop throws. -/
theorem stop_shortcircuit_witness :
    (stopTrace (some 1)).head? = some StopEv.readerStop ∧
    (stopTrace (some 1)).getLast? = some StopEv.removeAllListeners ∧
    ((some 1 : Option Nat) = none →
      stopTrace (some 1) = stopCalls ++ [StopEv.removeAllListeners]) ∧
    (∀ k, (some 1 : Option Nat) = some k →
      (stopTrace (some 1)).count StopEv.stopReport = 1 ∧
      ∀ j, j < 4 →
        (stopCalls.getD j StopEv.stopReport ∈ stopTrace (some 1) ↔
          j ≤ k)) :=
  stop_shortcircuit (some 1) (fun k hk => by injection hk with e; omega)

mutual
theorem strLeaves_escapeNode (rk : Bool) (t : JVal) :
    strLeaves rk (escapeNode rk t) = (strLeaves rk t).map escLeaf := by
  cases t with
  | str s => cases rk <;> simp [escapeNode, strLeaves, escLeaf]
  | num n => simp [escapeNode, strLeaves]
  | bool b => simp [escapeNode, strLeaves]
  | null => simp [escapeNode, strLeaves]
  | arr xs =>
    show strLeavesList (escapeList xs) = (strLeavesList xs).map escLeaf
    exact strLeavesList_escapeList xs
  | obj fs =>
    show strLeavesFields (escapeFields fs) =
      (strLeavesFields fs).map escLeaf
    exact strLeavesFields_escapeFields fs

theorem strLeavesList_escapeList (xs : JList) :
    strLeavesList (escapeList xs) = (strLeavesList xs).map escLeaf := by
  cases xs with
  | nil => rfl
  | cons x tl =>
    show strLeaves false (escapeNode false x) ++
        strLeavesList (escapeList tl) = _
    rw [strLeaves_escapeNode false x, strLeavesList_escapeList tl]
    simp [strLeavesList, List.map_append]

theorem strLeavesFields_escapeFields (fs : JFields) :
    strLeavesFields (escapeFields fs) = (strLeavesFields fs).map escLeaf := by
  cases fs with
  | nil => rfl
  | cons k v tl =>
    show strLeaves (k == "readme") (escapeNode (k == "readme") v) ++
        strLeavesFields (escapeFields tl) = _
    rw [strLeaves_escapeNode (k == "readme") v,
      strLeavesFields_escapeFields tl]
    simp [strLeavesFields, List.map_append]
end

/-- C10: on every document `formatPkg` returns, each string leaf is
HTML-escaped, except leaves whose key is `readme`, which are kept verbatim:
the string leaves of the escaped document are exactly the string leaves of
the truncated document, with `escapeHtml` applied to every leaf whose key
is not `readme`. -/
theorem formatPkg_escapes_all_but_readme (t : JVal) :
    strLeaves false (formatPkgEscape t) =
      (strLeaves false t).map
        fun p => (p.1, if p.1 then p.2 else escapeHtml p.2) :=
  strLeaves_escapeNode false t
